import Mathlib

/-!
The documentation site build and its browser entry point

A shallow embedding of two files of the repository:

* `lib/metalsmith.js`: the chain of `.use(...)` calls that registers the build
  stages, with the options each stage is given, and the `kebabCase` template
  filter;
* `src/javascripts/application.mjs`: the analytics consent guard and the lazy
  initialisation of examples through an intersection observer.

Definitions come first, theorems after them.
-/

namespace Metalsmith

/-! ## lib/metalsmith.js: the stage list -/

/-- The operating system family Node runs on; it decides what `path.normalize` returns. -/
inductive Platform where
  | posix
  | win32
  deriving DecidableEq, Repr

/-- The path separator of a platform (`path.sep`). -/
def pathSep : Platform → Char
  | .posix => '/'
  | .win32 => '\\'

/-- Node `path.normalize` on a relative path without empty, `.` or `..` segments
(every argument it gets in `lib/metalsmith.js` is one): forward slashes become
the platform separator and nothing else changes. -/
def pathNormalize (plat : Platform) (p : String) : String :=
  String.mk (p.data.map fun c => if c = '/' then pathSep plat else c)

/-- The modules whose export is passed to `.use(...)`, under the names the file binds them to
(`include_` is the binding `include`). -/
inductive Plugin where
  | brokenLinkChecker
  | canonical
  | env
  | hashAssets
  | include_
  | inplace
  | layouts
  | permalinks
  | postcss
  | renamer
  | sass
  | extractPageHeadings
  | generateSitemap
  | lunr
  | modernizrBuild
  | navigation
  | rollup
  | titleChecker
  deriving DecidableEq, Repr

/-- The value of one key of an options object literal. -/
inductive OptVal where
  /-- A string literal or the result of a string expression. -/
  | str (s : String)
  /-- An array of strings. -/
  | strs (xs : List String)
  /-- A boolean literal. -/
  | bool (b : Bool)
  /-- A nested object, function or value of another module, kept as its source text. -/
  | other (text : String)
  deriving DecidableEq, Repr

/-- One `.use(plugin(options))` call: the plugin and the keys of its options object, in
source order. A plugin called without an argument has no keys. -/
structure Stage where
  plugin : Plugin
  options : List (String × OptVal)
  deriving DecidableEq, Repr

/-- The builder object `metalsmith(directory)` returns and every chained call updates. -/
structure Builder where
  directory : String
  source : Option String
  destination : Option String
  clean : Bool
  metadata : List (String × OptVal)
  ignores : List String
  plugins : List Stage
  deriving DecidableEq, Repr

/-- The call `metalsmith(directory)`: a builder with no stage registered. -/
def metalsmith (directory : String) : Builder :=
  { directory := directory, source := none, destination := none, clean := true,
    metadata := [], ignores := [], plugins := [] }

/-- The call `.source(path)`. -/
def Builder.setSource (m : Builder) (p : String) : Builder := { m with source := some p }

/-- The call `.destination(path)`. -/
def Builder.setDestination (m : Builder) (p : String) : Builder :=
  { m with destination := some p }

/-- The call `.clean(flag)`. -/
def Builder.setClean (m : Builder) (b : Bool) : Builder := { m with clean := b }

/-- The call `.metadata(object)`. -/
def Builder.setMetadata (m : Builder) (kv : List (String × OptVal)) : Builder :=
  { m with metadata := m.metadata ++ kv }

/-- The call `.ignore(pattern)`: it adds a source file pattern to skip and registers no stage. -/
def Builder.ignore (m : Builder) (p : String) : Builder := { m with ignores := m.ignores ++ [p] }

/-- The call `.use(stage)`: the stage is appended to the stage list. -/
def Builder.use (m : Builder) (s : Stage) : Builder := { m with plugins := m.plugins ++ [s] }

/-- The options object every `rollup` call is given, for its entry point `input`. -/
def rollupOptions (input : String) : List (String × OptVal) :=
  [("input", .str input),
   ("output", .other "legacy: true, format: iife"),
   ("plugins", .other "resolve(), commonjs()")]

/-- The value of `module.exports` in `lib/metalsmith.js`, call by call. -/
def moduleExports (plat : Platform) : Builder :=
  (metalsmith "path.resolve(__dirname, ../)")
    |>.setSource "paths.source"
    |>.setDestination "paths.public"
    |>.setClean true
    |>.setMetadata [("title", .str "[TITLE NOT SET]"), ("colours", .other "colours")]
    |>.use ⟨.renamer, [("markdown", .other "pattern: **/*.md, rename: name to name.njk")]⟩
    |>.use ⟨.extractPageHeadings, []⟩
    |>.ignore ".eslintrc.js"
    |>.use ⟨.env, []⟩
    |>.use ⟨.sass, [("quietDeps", .bool true), ("loadPaths", .strs ["node_modules", "src/stylesheets"])]⟩
    |>.use ⟨.postcss, [("plugins", .other "autoprefixer")]⟩
    |>.use ⟨.include_, [("directories", .other "assets, assets/fonts, assets/images, javascripts/vendor")]⟩
    |>.use ⟨.modernizrBuild,
        [("config", .str (pathNormalize plat "../config/modernizr.json")),
         ("destination", .str (pathNormalize plat "javascripts/vendor/")),
         ("filename", .str "modernizr.js")]⟩
    |>.use ⟨.rollup, rollupOptions "javascripts/head-ie8.js"⟩
    |>.use ⟨.rollup, rollupOptions "javascripts/application.js"⟩
    |>.use ⟨.rollup, rollupOptions "javascripts/application-ie8.js"⟩
    |>.use ⟨.rollup, rollupOptions "javascripts/govuk-frontend.js"⟩
    |>.use ⟨.rollup, rollupOptions "javascripts/example.js"⟩
    |>.use ⟨.hashAssets,
        [("pattern", .strs
          ["**\\*.css",
           "**/*.css",
           pathNormalize plat "javascripts/application-ie8.js",
           pathNormalize plat "javascripts/application.js",
           pathNormalize plat "javascripts/head-ie8.js",
           pathNormalize plat "javascripts/govuk-frontend.js",
           pathNormalize plat "javascripts/example.js",
           pathNormalize plat "javascripts/vendor/modernizr.js"])]⟩
    |>.use ⟨.titleChecker, []⟩
    |>.use ⟨.inplace, [("pattern", .str "**/*.njk"), ("engineOptions", .other "path, noCache, trimBlocks, lstripBlocks, globals, filters, mangle, renderer, smartypants, highlight")]⟩
    |>.use ⟨.permalinks, [("relative", .bool false)]⟩
    |>.use ⟨.canonical,
        [("hostname", .str "https://design-system.service.gov.uk"),
         ("omitIndex", .bool true),
         ("omitTrailingSlashes", .bool false)]⟩
    |>.use ⟨.navigation, []⟩
    |>.use ⟨.lunr, []⟩
    |>.use ⟨.hashAssets, [("pattern", .strs ["search-index.json"])]⟩
    |>.use ⟨.layouts,
        [("default", .str "layout.njk"),
         ("directory", .other "paths.layouts"),
         ("pattern", .str "**/*.html"),
         ("engineOptions", .other "path: views, globals: getFingerprint")]⟩
    |>.use ⟨.generateSitemap,
        [("hostname", .str "https://design-system.service.gov.uk"),
         ("pattern", .strs ["**/*.html", "!**/default/*.html"])]⟩
    |>.use ⟨.brokenLinkChecker, []⟩

/-- The ordered stage list of the build. -/
def stages (plat : Platform) : List Stage := (moduleExports plat).plugins

/-- The plugin of every stage, in registration order. -/
def pluginOrder (plat : Platform) : List Plugin := (stages plat).map (·.plugin)

/-- The index of the first stage that runs plugin `p`, if there is one. -/
def firstIndex (p : Plugin) (l : List Stage) : Option Nat :=
  l.findIdx? fun s => s.plugin == p

/-- The indices of all the stages that run plugin `p`, ascending. -/
def indicesOf (p : Plugin) (l : List Stage) : List Nat :=
  (l.enum.filter fun x => x.2.plugin == p).map (·.1)

/-- The first stage of plugin `a` is registered strictly before the first stage of plugin `b`. -/
def firstBefore (a b : Plugin) (l : List Stage) : Bool :=
  match firstIndex a l, firstIndex b l with
  | some i, some j => decide (i < j)
  | _, _ => false

/-- The strings an option value lists: the string itself or the elements of the array. -/
def OptVal.listed : OptVal → List String
  | .str s => [s]
  | .strs xs => xs
  | .bool _ => []
  | .other _ => []

/-- The strings listed under key `k` of a stage, none when the key is absent. -/
def Stage.listedUnder (s : Stage) (k : String) : List String :=
  match s.options.lookup k with
  | some v => v.listed
  | none => []

/-- The keys of the options object of a stage. -/
def Stage.keys (s : Stage) : List String := s.options.map (·.1)

/-! ## lib/metalsmith.js: the kebabCase template filter

A JavaScript string is a sequence of UTF-16 code units; it is modelled as the list of their
numeric values. -/

/-- The code units of a string of ASCII characters. -/
def ofAscii (s : String) : List Nat := s.data.map Char.toNat

/-- The character class `[a-z0-9]`. -/
def isLowerOrDigit (c : Nat) : Bool := (97 ≤ c && c ≤ 122) || (48 ≤ c && c ≤ 57)

/-- The character class `[A-Z]`. -/
def isUpper (c : Nat) : Bool := 65 ≤ c && c ≤ 90

/-- The code unit of the hyphen. -/
def hyphen : Nat := 45

/-- The call `string.replace(/([a-z0-9]|(?=[A-Z]))([A-Z])/g, '$1-$2')`, scanning from the left.
At each position the engine first tries group 1 as one character of `[a-z0-9]` followed by
`[A-Z]`: the two characters `c d` are replaced by `c-d` and the scan goes on after `d`. If that
fails it backtracks to the empty lookahead alternative, which needs `[A-Z]` at the position
itself: the character `c` is replaced by `-c`. With no match at the position the character is
copied and the scan moves one character on. -/
def replaceUpper : List Nat → List Nat
  | [] => []
  | [c] => if isUpper c then [hyphen, c] else [c]
  | c :: d :: rest =>
    if isLowerOrDigit c && isUpper d then c :: hyphen :: d :: replaceUpper rest
    else if isUpper c then hyphen :: c :: replaceUpper (d :: rest)
    else c :: replaceUpper (d :: rest)

/-- The lower case of one code unit, for code units below 128: `A` to `Z` move to `a` to
`z`, every other one stays. -/
def lowerUnit (c : Nat) : Nat := if isUpper c then c + 32 else c

/-- The method `toLowerCase()` on a string of ASCII characters. -/
def toLowerCase (s : List Nat) : List Nat := s.map lowerUnit

/-- The filter `kebabCase` of the templating options. -/
def kebabCase (string : List Nat) : List Nat := toLowerCase (replaceUpper string)

/-- The reference definition of the specification, in its words: the concatenation over the
characters `c` of `s`, in order, of a hyphen followed by the lower case of `c` when `c` is in
`A` to `Z`, and of `c` itself otherwise. -/
def kebabCaseRef (s : List Nat) : List Nat :=
  (s.map fun c => if isUpper c then [hyphen, lowerUnit c] else [c]).flatten

end Metalsmith

namespace Application

/-! ## src/javascripts/application.mjs: the analytics consent guard -/

/-- A JavaScript value, as far as the consent guard looks at it. -/
inductive JsValue where
  | undefined
  | null
  | bool (b : Bool)
  | number (n : Int)
  | nan
  | string (s : String)
  | object (props : List (String × JsValue))

/-- The truthiness of a value in a condition. -/
def JsValue.truthy : JsValue → Bool
  | .undefined => false
  | .null => false
  | .bool b => b
  | .number n => n != 0
  | .nan => false
  | .string s => s != ""
  | .object _ => true

/-- The property of a value under a key, none among the properties of an object. -/
def lookupProp : List (String × JsValue) → String → JsValue
  | [], _ => .undefined
  | (k, v) :: rest, key => if k = key then v else lookupProp rest key

/-- The property access `value.key`: a TypeError on `undefined` and `null`, the property of an
object, and `undefined` on a primitive, which has no such property. -/
def JsValue.get (v : JsValue) (key : String) : Except String JsValue :=
  match v with
  | .undefined => .error "TypeError"
  | .null => .error "TypeError"
  | .object props => .ok (lookupProp props key)
  | _ => .ok .undefined

/-- Lines 27 to 30: the number of calls of `Analytics()`, given the value `userConsent` that
`getConsentCookie()` returned and the function `isValidConsentCookie`. The operands of `&&`
are evaluated from the left and the first falsy one ends the evaluation. -/
def analyticsCalls (userConsent : JsValue) (isValidConsentCookie : JsValue → JsValue) :
    Except String Nat :=
  if !userConsent.truthy then .ok 0
  else if !(isValidConsentCookie userConsent).truthy then .ok 0
  else
    match userConsent.get "analytics" with
    | .error e => .error e
    | .ok analytics => if analytics.truthy then .ok 1 else .ok 0

/-! ## src/javascripts/application.mjs: lazy initialisation of examples -/

/-- An element of the document, by identity. -/
abbrev Element := Nat

/-- An instance of the class `Example`: the element it was made for. -/
structure Example where
  module : Element
  deriving DecidableEq, Repr

/-- An entry the intersection observer passes to its callback. -/
structure Entry where
  isIntersecting : Bool
  target : Element
  deriving DecidableEq, Repr

/-- The state the script reads and writes: the map `exampleRegister` in insertion order, the
elements `exampleObserver` observes, and the examples whose `init()` has been called, oldest
first. -/
structure State where
  exampleRegister : List (Element × Example)
  observed : List Element
  inits : List Example
  deriving DecidableEq, Repr

/-- The state before any example is registered. -/
def State.empty : State := { exampleRegister := [], observed := [], inits := [] }

/-- The method `Map.prototype.set`: the value of an existing key is replaced, a new key is
added at the end. -/
def mapSet : List (Element × Example) → Element → Example → List (Element × Example)
  | [], k, v => [(k, v)]
  | (k0, v0) :: m, k, v => if k0 = k then (k, v) :: m else (k0, v0) :: mapSet m k v

/-- The method `Map.prototype.get`, none for `undefined`. -/
def mapGet : List (Element × Example) → Element → Option Example
  | [], _ => none
  | (k0, v0) :: m, k => if k0 = k then some v0 else mapGet m k

/-- The method `observe` of the observer: the element becomes a target if it is not one. -/
def observe (observed : List Element) (e : Element) : List Element :=
  if e ∈ observed then observed else observed ++ [e]

/-- The method `unobserve` of the observer: the element is no longer a target. -/
def unobserve (observed : List Element) (e : Element) : List Element :=
  observed.filter fun x => x != e

/-- How a call of the callback ends. -/
inductive Completion where
  | normal
  | typeError
  deriving DecidableEq, Repr

/-- The callback of `exampleObserver` (lines 39 to 51) on a batch of entries. An entry that is
not intersecting ends the whole call (`return`); for an intersecting entry the target is
unobserved and `init()` is called on what `exampleRegister.get(entry.target)` returns, which
throws a TypeError when the target has no entry. The `console.log` line is left out. -/
def exampleObserverCallback : State → List Entry → State × Completion
  | s, [] => (s, .normal)
  | s, entry :: entries =>
    if !entry.isIntersecting then (s, .normal)
    else
      let s1 := { s with observed := unobserve s.observed entry.target }
      match mapGet s1.exampleRegister entry.target with
      | none => (s1, .typeError)
      | some example_ =>
        exampleObserverCallback { s1 with inits := s1.inits ++ [example_] } entries

/-- The loop over `$examples` (lines 55 to 67): `newExample` stands for `new Example(...)` and
`hasObserver` for the test that `IntersectionObserver` is in `window`. Without an observer
each example is initialised at once; with one it is put in the register under its element and
the element is observed. -/
def initExamples (hasObserver : Bool) (newExample : Element → Example) :
    State → List Element → State
  | s, [] => s
  | s, el :: rest =>
    let example_ := newExample el
    if !hasObserver then
      initExamples hasObserver newExample { s with inits := s.inits ++ [example_] } rest
    else
      initExamples hasObserver newExample
        { s with
          exampleRegister := mapSet s.exampleRegister example_.module example_
          observed := observe s.observed example_.module } rest

/-- The state after the callback has been called on each batch in turn; a call that throws
leaves the state it reached and the observer goes on delivering. -/
def deliver : State → List (List Entry) → State
  | s, [] => s
  | s, batch :: batches => deliver (exampleObserverCallback s batch).1 batches

/-- The number of `init()` calls so far on examples of element `e`. -/
def initCount (s : State) (e : Element) : Nat :=
  (s.inits.filter fun x => x.module == e).length

/-- Every intersecting entry the callback handles on the batch, for an element with a register
entry, is for an element that is observed at the moment it is handled. The walk over the batch
is the one of the callback: it ends where the callback ends. -/
def handledObserved : State → List Entry → Bool
  | _, [] => true
  | s, entry :: entries =>
    if !entry.isIntersecting then true
    else
      match mapGet s.exampleRegister entry.target with
      | none => true
      | some example_ =>
        decide (entry.target ∈ s.observed) &&
          handledObserved
            { s with
              observed := unobserve s.observed entry.target
              inits := s.inits ++ [example_] } entries

/-- The condition `handledObserved` on every batch of a sequence, each in the state the batches
before it lead to. -/
def allHandledObserved : State → List (List Entry) → Bool
  | _, [] => true
  | s, batch :: batches =>
    handledObserved s batch && allHandledObserved (exampleObserverCallback s batch).1 batches

/-- The invariant behind single initialisation: a register entry holds an example of its own
key, an observed element has no `init()` call yet, no element has more than one `init()` call,
and a registered element that is no longer observed has had its `init()` call. -/
def Consistent (s : State) : Prop :=
  (∀ k ex, mapGet s.exampleRegister k = some ex → ex.module = k) ∧
  (∀ e ∈ s.observed, initCount s e = 0) ∧
  (∀ e, initCount s e ≤ 1) ∧
  (∀ k ex, mapGet s.exampleRegister k = some ex → k ∉ s.observed → 1 ≤ initCount s k)

end Application

namespace Metalsmith

/-! ## Theorems about the stage list -/

/-- A property checked on every indexed element of a list holds at every index. -/
theorem forall_index_of_enum_all {α : Type} (l : List α) (P : Nat → α → Bool)
    (h : (l.enum.all fun x => P x.1 x.2) = true) :
    ∀ i a, l[i]? = some a → P i a = true := by
  intro i a hi
  rw [List.all_eq_true] at h
  exact h (i, a) (List.mk_mem_enum_iff_getElem?.mpr hi)

/-- The plugins of the stage list, written out; the platform does not change them. -/
theorem pluginOrder_eq (plat : Platform) :
    pluginOrder plat =
      [.renamer, .extractPageHeadings, .env, .sass, .postcss, .include_, .modernizrBuild,
       .rollup, .rollup, .rollup, .rollup, .rollup, .hashAssets, .titleChecker, .inplace,
       .permalinks, .canonical, .navigation, .lunr, .hashAssets, .layouts, .generateSitemap,
       .brokenLinkChecker] := by
  cases plat <;> decide

/-- C1: in the stage list the first hashAssets stage, inplace, navigation, lunr, layouts,
generateSitemap and brokenLinkChecker occur in this relative order: each of the six later
plugins is registered exactly once, and for every adjacent pair the index of the former is
strictly less than the index of the latter. -/
theorem core_stage_order (plat : Platform) :
    firstBefore .hashAssets .inplace (stages plat) = true ∧
    firstBefore .inplace .navigation (stages plat) = true ∧
    firstBefore .navigation .lunr (stages plat) = true ∧
    firstBefore .lunr .layouts (stages plat) = true ∧
    firstBefore .layouts .generateSitemap (stages plat) = true ∧
    firstBefore .generateSitemap .brokenLinkChecker (stages plat) = true ∧
    firstIndex .hashAssets (stages plat) = some 12 ∧
    indicesOf .inplace (stages plat) = [14] ∧
    indicesOf .navigation (stages plat) = [17] ∧
    indicesOf .lunr (stages plat) = [18] ∧
    indicesOf .layouts (stages plat) = [20] ∧
    indicesOf .generateSitemap (stages plat) = [21] ∧
    indicesOf .brokenLinkChecker (stages plat) = [22] := by
  cases plat <;> decide

/-- C2: brokenLinkChecker is the last element of the stage list: the list has 23 stages, its
last one is the brokenLinkChecker call, that plugin is registered at index 22 only, and every
stage of another plugin (generateSitemap and layouts among them) has a strictly smaller
index. -/
theorem link_checker_is_last (plat : Platform) :
    (stages plat).getLast? = some ⟨.brokenLinkChecker, []⟩ ∧
    (stages plat).length = 23 ∧
    indicesOf .brokenLinkChecker (stages plat) = [22] ∧
    firstBefore .generateSitemap .brokenLinkChecker (stages plat) = true ∧
    firstBefore .layouts .brokenLinkChecker (stages plat) = true ∧
    (∀ i s, (stages plat)[i]? = some s → s.plugin ≠ .brokenLinkChecker → i < 22) ∧
    (∀ i, 22 < i → (stages plat)[i]? = none) := by
  refine ⟨by cases plat <;> decide, by cases plat <;> decide, by cases plat <;> decide,
    by cases plat <;> decide, by cases plat <;> decide, ?_, ?_⟩
  · intro i s hi hne
    have h := forall_index_of_enum_all (stages plat)
      (fun i s => decide (s.plugin ≠ .brokenLinkChecker → i < 22))
      (by cases plat <;> decide) i s hi
    exact of_decide_eq_true h hne
  · intro i hi
    have hlen : (stages plat).length = 23 := by cases plat <;> decide
    exact List.getElem?_eq_none (by omega)

/-- C3: the sass stage (index 3), the postcss stage (4), the modernizrBuild stage (6) and the
five rollup stages (7 to 11, with inputs head-ie8.js, application.js, application-ie8.js,
govuk-frontend.js, example.js under javascripts/) all have an index strictly less than 12, the
index of the first hashAssets stage; so no sass or rollup stage occurs after it. -/
theorem compile_and_bundle_before_fingerprint (plat : Platform) :
    firstIndex .hashAssets (stages plat) = some 12 ∧
    indicesOf .sass (stages plat) = [3] ∧
    indicesOf .postcss (stages plat) = [4] ∧
    indicesOf .modernizrBuild (stages plat) = [6] ∧
    indicesOf .rollup (stages plat) = [7, 8, 9, 10, 11] ∧
    ((stages plat).filter fun s => s.plugin == .rollup).map (·.listedUnder "input") =
      [["javascripts/head-ie8.js"], ["javascripts/application.js"],
       ["javascripts/application-ie8.js"], ["javascripts/govuk-frontend.js"],
       ["javascripts/example.js"]] ∧
    (∀ i s, (stages plat)[i]? = some s →
      s.plugin ∈ [Plugin.sass, .postcss, .modernizrBuild, .rollup] → i < 12) := by
  refine ⟨by cases plat <;> decide, by cases plat <;> decide, by cases plat <;> decide,
    by cases plat <;> decide, by cases plat <;> decide, by cases plat <;> decide, ?_⟩
  intro i s hi hmem
  have h := forall_index_of_enum_all (stages plat)
    (fun i s => decide (s.plugin ∈ [Plugin.sass, .postcss, .modernizrBuild, .rollup] → i < 12))
    (by cases plat <;> decide) i s hi
  exact of_decide_eq_true h hmem

/-- C4: the permalinks stage (index 15) and the canonical stage (16) both occur before the
navigation stage (17), and every renamer, permalinks or canonical stage has an index strictly
less than that of the navigation stage, so none occurs at or after it. -/
theorem navigation_after_urls_final (plat : Platform) :
    firstBefore .permalinks .navigation (stages plat) = true ∧
    firstBefore .canonical .navigation (stages plat) = true ∧
    indicesOf .renamer (stages plat) = [0] ∧
    indicesOf .permalinks (stages plat) = [15] ∧
    indicesOf .canonical (stages plat) = [16] ∧
    indicesOf .navigation (stages plat) = [17] ∧
    (∀ i s, (stages plat)[i]? = some s →
      s.plugin ∈ [Plugin.renamer, .permalinks, .canonical] → i < 17) := by
  refine ⟨by cases plat <;> decide, by cases plat <;> decide, by cases plat <;> decide,
    by cases plat <;> decide, by cases plat <;> decide, by cases plat <;> decide, ?_⟩
  intro i s hi hmem
  have h := forall_index_of_enum_all (stages plat)
    (fun i s => decide (s.plugin ∈ [Plugin.renamer, .permalinks, .canonical] → i < 17))
    (by cases plat <;> decide) i s hi
  exact of_decide_eq_true h hmem

/-- C5: the file search-index.json is not among the patterns of the first hashAssets stage
(index 12); the hashAssets stage whose pattern list is exactly that one file is at index 19,
immediately after the lunr stage (18), it is the only stage with that pattern list, and the
layouts, generateSitemap and brokenLinkChecker stages all come after it. -/
theorem search_index_hashed_after_lunr (plat : Platform) :
    (∃ first, (stages plat)[12]? = some first ∧
      firstIndex .hashAssets (stages plat) = some 12 ∧
      "search-index.json" ∉ first.listedUnder "pattern") ∧
    indicesOf .lunr (stages plat) = [18] ∧
    (stages plat)[18 + 1]? = some ⟨.hashAssets, [("pattern", .strs ["search-index.json"])]⟩ ∧
    (∀ i s, (stages plat)[i]? = some s →
      s.listedUnder "pattern" = ["search-index.json"] → i = 19) ∧
    (∀ i s, (stages plat)[i]? = some s →
      s.plugin ∈ [Plugin.layouts, .generateSitemap, .brokenLinkChecker] → 19 < i) := by
  refine ⟨?_, by cases plat <;> decide, by cases plat <;> decide, ?_, ?_⟩
  · cases plat
    · exact ⟨_, rfl, by decide, by decide⟩
    · exact ⟨_, rfl, by decide, by decide⟩
  · intro i s hi hp
    have h := forall_index_of_enum_all (stages plat)
      (fun i s => decide (s.listedUnder "pattern" = ["search-index.json"] → i = 19))
      (by cases plat <;> decide) i s hi
    exact of_decide_eq_true h hp
  · intro i s hi hmem
    have h := forall_index_of_enum_all (stages plat)
      (fun i s => decide
        (s.plugin ∈ [Plugin.layouts, .generateSitemap, .brokenLinkChecker] → 19 < i))
      (by cases plat <;> decide) i s hi
    exact of_decide_eq_true h hmem

/-- C6, as stated, fails: on no platform does a hashAssets stage list search-index.json under
a key other than `pattern`, so the options name no separate ignore pattern for it. -/
theorem search_index_not_under_ignore_key :
    ¬ ∃ plat s k, s ∈ stages plat ∧ s.plugin = .hashAssets ∧ k ≠ "pattern" ∧
      "search-index.json" ∈ s.listedUnder k := by
  rintro ⟨plat, s, k, hs, hp, hk, hmem⟩
  have hkeys : ∀ t ∈ stages plat, t.plugin = .hashAssets → t.keys = ["pattern"] := by
    cases plat <;> decide
  have hk2 := hkeys s hs hp
  obtain ⟨pl, opts⟩ := s
  simp only [Stage.keys] at hk2
  match opts, hk2 with
  | [(k1, v)], hk2 =>
    simp only [List.map, List.cons.injEq, and_true] at hk2
    subst hk2
    simp [Stage.listedUnder, List.lookup, hk] at hmem
    have : (k == "pattern") = false := by simpa using hk
    simp [this] at hmem

/-- C6, amended: both hashAssets stages are given an options object with the single key
`pattern`; the one at index 19 lists search-index.json there, the one at index 12 lists its
stylesheet and script targets there, and no listed pattern is a negated glob. -/
theorem hash_assets_use_pattern_only (plat : Platform) :
    indicesOf .hashAssets (stages plat) = [12, 19] ∧
    (∀ s ∈ stages plat, s.plugin = .hashAssets → s.keys = ["pattern"]) ∧
    (∃ second, (stages plat)[19]? = some second ∧
      second.listedUnder "pattern" = ["search-index.json"]) ∧
    (∃ first, (stages plat)[12]? = some first ∧
      first.listedUnder "pattern" =
        ["**\\*.css", "**/*.css",
         pathNormalize plat "javascripts/application-ie8.js",
         pathNormalize plat "javascripts/application.js",
         pathNormalize plat "javascripts/head-ie8.js",
         pathNormalize plat "javascripts/govuk-frontend.js",
         pathNormalize plat "javascripts/example.js",
         pathNormalize plat "javascripts/vendor/modernizr.js"]) ∧
    (∀ s ∈ stages plat, s.plugin = .hashAssets →
      ∀ p ∈ s.listedUnder "pattern", p.data.head? ≠ some '!') := by
  refine ⟨by cases plat <;> decide, by cases plat <;> decide, ?_, ?_, by cases plat <;> decide⟩
  · cases plat
    · exact ⟨_, rfl, by decide⟩
    · exact ⟨_, rfl, by decide⟩
  · cases plat
    · exact ⟨_, rfl, by decide⟩
    · exact ⟨_, rfl, by decide⟩

/-! ## Theorems about the kebabCase filter -/

/-- A character of `[a-z0-9]` is not one of `[A-Z]`. -/
theorem not_isUpper_of_isLowerOrDigit (c : Nat) (h : isLowerOrDigit c = true) :
    isUpper c = false := by
  simp only [isLowerOrDigit, isUpper, Bool.or_eq_true, Bool.and_eq_true, decide_eq_true_eq,
    Bool.and_eq_false_imp] at *
  intro _
  simp only [decide_eq_false_iff_not]
  omega

/-- The replace call puts a hyphen before every character of `[A-Z]` and copies the rest. -/
theorem replaceUpper_eq (s : List Nat) :
    replaceUpper s = (s.map fun c => if isUpper c then [hyphen, c] else [c]).flatten := by
  induction s using replaceUpper.induct with
  | case1 => rfl
  | case2 c h => simp [replaceUpper, h]
  | case3 c h => simp [replaceUpper, h]
  | case4 c d rest h ih =>
    have hc : isUpper c = false :=
      not_isUpper_of_isLowerOrDigit c (by simp only [Bool.and_eq_true] at h; exact h.1)
    have hd : isUpper d = true := by simp only [Bool.and_eq_true] at h; exact h.2
    rw [replaceUpper, if_pos h, ih]
    simp [hc, hd]
  | case5 c d rest h hc ih =>
    rw [replaceUpper, if_neg h, if_pos hc, ih]
    simp [hc]
  | case6 c d rest h hc ih =>
    rw [replaceUpper, if_neg h, if_neg hc, ih]
    simp [hc]

/-- The filter agrees with the reference definition on every string. -/
theorem kebabCase_eq_ref (s : List Nat) : kebabCase s = kebabCaseRef s := by
  rw [kebabCase, replaceUpper_eq, kebabCaseRef, toLowerCase]
  induction s with
  | nil => rfl
  | cons c rest ih =>
    simp only [List.map_cons, List.flatten_cons, List.map_append, ih]
    congr 1
    have hl : lowerUnit hyphen = hyphen := by decide
    by_cases hc : isUpper c = true
    · simp [hc, hl]
    · simp [hc, lowerUnit]

/-- The lower case of a code unit is not in `[A-Z]`. -/
theorem isUpper_lowerUnit (c : Nat) : isUpper (lowerUnit c) = false := by
  unfold lowerUnit
  by_cases hc : isUpper c = true
  · rw [if_pos hc]
    simp only [isUpper, Bool.and_eq_true, decide_eq_true_eq, Bool.and_eq_false_imp,
      decide_eq_false_iff_not] at *
    omega
  · rw [if_neg hc]
    simpa using hc

/-- No character of the reference result is in `[A-Z]`. -/
theorem kebabCaseRef_no_upper (s : List Nat) : ∀ c ∈ kebabCaseRef s, isUpper c = false := by
  induction s with
  | nil => intro c hc; simp [kebabCaseRef] at hc
  | cons a rest ih =>
    intro c hc
    simp only [kebabCaseRef, List.map_cons, List.flatten_cons, List.mem_append] at hc
    rcases hc with hc | hc
    · by_cases ha : isUpper a = true
      · simp only [ha, if_true, List.mem_cons, List.mem_singleton, List.not_mem_nil,
          or_false] at hc
        rcases hc with rfl | rfl
        · decide
        · exact isUpper_lowerUnit a
      · have hf : isUpper a = false := by simpa using ha
        rw [hf] at hc
        simp only [Bool.false_eq_true, if_false, List.mem_singleton] at hc
        subst hc
        exact hf
    · exact ih c hc

/-- The reference result is as long as the string plus its number of `[A-Z]` characters. -/
theorem kebabCaseRef_length (s : List Nat) :
    (kebabCaseRef s).length = s.length + s.countP isUpper := by
  induction s with
  | nil => rfl
  | cons a rest ih =>
    have h : kebabCaseRef (a :: rest) =
        (if isUpper a then [hyphen, lowerUnit a] else [a]) ++ kebabCaseRef rest := by
      simp [kebabCaseRef]
    rw [h, List.length_append, ih]
    by_cases ha : isUpper a = true
    · simp [ha, List.countP_cons]; omega
    · simp [ha, List.countP_cons]; omega

/-- A string without a character of `[A-Z]` is its own reference result. -/
theorem kebabCaseRef_of_no_upper (s : List Nat) (h : ∀ c ∈ s, isUpper c = false) :
    kebabCaseRef s = s := by
  induction s with
  | nil => rfl
  | cons a rest ih =>
    have ha : isUpper a = false := h a (List.mem_cons_self a rest)
    have hr : kebabCaseRef rest = rest := ih fun c hc => h c (List.mem_cons_of_mem a hc)
    have h2 : kebabCaseRef (a :: rest) =
        (if isUpper a then [hyphen, lowerUnit a] else [a]) ++ kebabCaseRef rest := by
      simp [kebabCaseRef]
    rw [h2, hr]
    simp [ha]

/-- C10: on every string of ASCII characters the kebabCase filter equals the definition of
reference (a hyphen and the lower case letter for each letter `A` to `Z`, every other
character as it is). So the result has no letter `A` to `Z`, its length is the length of the
string plus its number of upper case letters, a string without upper case letter is returned
unchanged, the filter is idempotent, a string that starts with an upper case letter gives a
result that starts with a hyphen, and `FooBar`, `fooBar`, `ABC` give `-foo-bar`, `foo-bar`,
`-a-b-c`. -/
theorem kebabCase_spec (s : List Nat) (hascii : ∀ c ∈ s, c < 128) :
    kebabCase s = kebabCaseRef s ∧
    (∀ c ∈ kebabCase s, isUpper c = false) ∧
    (kebabCase s).length = s.length + s.countP isUpper ∧
    ((∀ c ∈ s, isUpper c = false) → kebabCase s = s) ∧
    kebabCase (kebabCase s) = kebabCase s ∧
    (∀ c rest, s = c :: rest → isUpper c = true → (kebabCase s).head? = some hyphen) ∧
    (∀ c ∈ kebabCase s, c < 128) ∧
    kebabCase (ofAscii "FooBar") = ofAscii "-foo-bar" ∧
    kebabCase (ofAscii "fooBar") = ofAscii "foo-bar" ∧
    kebabCase (ofAscii "ABC") = ofAscii "-a-b-c" := by
  refine ⟨kebabCase_eq_ref s, ?_, ?_, ?_, ?_, ?_, ?_, by decide, by decide, by decide⟩
  · rw [kebabCase_eq_ref]; exact kebabCaseRef_no_upper s
  · rw [kebabCase_eq_ref]; exact kebabCaseRef_length s
  · intro h; rw [kebabCase_eq_ref]; exact kebabCaseRef_of_no_upper s h
  · rw [kebabCase_eq_ref (kebabCase s), kebabCase_eq_ref s]
    exact kebabCaseRef_of_no_upper _ (kebabCaseRef_no_upper s)
  · intro c rest hs hc
    subst hs
    rw [kebabCase_eq_ref]
    simp [kebabCaseRef, hc]
  · rw [kebabCase_eq_ref]
    clear * - hascii
    induction s with
    | nil => intro c hc; simp [kebabCaseRef] at hc
    | cons a rest ih =>
      intro c hc
      have ha : a < 128 := hascii a (List.mem_cons_self a rest)
      simp only [kebabCaseRef, List.map_cons, List.flatten_cons, List.mem_append] at hc
      rcases hc with hc | hc
      · by_cases hu : isUpper a = true
        · simp only [hu, if_true, List.mem_cons, List.mem_singleton, List.not_mem_nil,
            or_false] at hc
          rcases hc with rfl | rfl
          · decide
          · simp only [isUpper, Bool.and_eq_true, decide_eq_true_eq] at hu
            simp only [lowerUnit, isUpper, hu, decide_True, Bool.and_self, if_true]
            omega
        · have hf : isUpper a = false := by simpa using hu
          rw [hf] at hc
          simp only [Bool.false_eq_true, if_false, List.mem_singleton] at hc
          omega
      · exact ih (fun c hc => hascii c (List.mem_cons_of_mem a hc)) c hc

/-- The filter on the ASCII string `FooBar`, with all the consequences of C10 there. -/
theorem kebabCase_spec_witness :
    (∀ c ∈ ofAscii "FooBar", c < 128) ∧
    kebabCase (ofAscii "FooBar") = kebabCaseRef (ofAscii "FooBar") ∧
    kebabCase (ofAscii "FooBar") = ofAscii "-foo-bar" :=
  ⟨by decide, (kebabCase_spec (ofAscii "FooBar") (by decide)).1, by decide⟩


end Metalsmith

namespace Application

/-! ## Theorems about the analytics consent guard -/

/-- Reading a property of a truthy value never throws. -/
theorem get_ok_of_truthy (v : JsValue) (key : String) (h : v.truthy = true) :
    ∃ a, v.get key = .ok a := by
  cases v with
  | undefined => simp [JsValue.truthy] at h
  | null => simp [JsValue.truthy] at h
  | bool b => exact ⟨_, rfl⟩
  | number n => exact ⟨_, rfl⟩
  | nan => exact ⟨_, rfl⟩
  | string s => exact ⟨_, rfl⟩
  | object props => exact ⟨_, rfl⟩

/-- C7: for every value of the consent cookie and every validity function, the guard never
throws; it calls `Analytics()` exactly once when the cookie value is truthy, the validity
check on it is truthy and its `analytics` property is truthy, and not at all in every other
case. -/
theorem analytics_iff_consent (userConsent : JsValue)
    (isValidConsentCookie : JsValue → JsValue) :
    ((userConsent.truthy = true ∧ (isValidConsentCookie userConsent).truthy = true ∧
        ∃ a, userConsent.get "analytics" = .ok a ∧ a.truthy = true) →
      analyticsCalls userConsent isValidConsentCookie = .ok 1) ∧
    (¬ (userConsent.truthy = true ∧ (isValidConsentCookie userConsent).truthy = true ∧
        ∃ a, userConsent.get "analytics" = .ok a ∧ a.truthy = true) →
      analyticsCalls userConsent isValidConsentCookie = .ok 0) := by
  constructor
  · rintro ⟨h1, h2, a, ha, hat⟩
    simp [analyticsCalls, h1, h2, ha, hat]
  · intro hn
    by_cases h1 : userConsent.truthy = true
    · by_cases h2 : (isValidConsentCookie userConsent).truthy = true
      · obtain ⟨a, ha⟩ := get_ok_of_truthy userConsent "analytics" h1
        have hat : a.truthy = false := by
          by_contra hc
          exact hn ⟨h1, h2, a, ha, by simpa using hc⟩
        simp [analyticsCalls, h1, h2, ha, hat]
      · simp [analyticsCalls, h1, h2]
    · simp [analyticsCalls, h1]

/-! ## Theorems about the lazy initialisation of examples -/

/-- C8 fails on the code: with the elements 0 and 1 registered and observed, the batch of a
non-intersecting entry for 0 followed by an intersecting entry for 1 leaves the state as it
was: element 1 is still observed and its example is not initialised, while the same
intersecting entry alone in a batch unobserves 1 and initialises its example. -/
theorem early_return_skips_visible_entry :
    mapGet (initExamples true Example.mk State.empty [0, 1]).exampleRegister 1 = some ⟨1⟩ ∧
    exampleObserverCallback (initExamples true Example.mk State.empty [0, 1])
        [⟨false, 0⟩, ⟨true, 1⟩] =
      (initExamples true Example.mk State.empty [0, 1], .normal) ∧
    1 ∈ (exampleObserverCallback (initExamples true Example.mk State.empty [0, 1])
        [⟨false, 0⟩, ⟨true, 1⟩]).1.observed ∧
    initCount (exampleObserverCallback (initExamples true Example.mk State.empty [0, 1])
        [⟨false, 0⟩, ⟨true, 1⟩]).1 1 = 0 ∧
    exampleObserverCallback (initExamples true Example.mk State.empty [0, 1]) [⟨true, 1⟩] =
      (⟨[(0, ⟨0⟩), (1, ⟨1⟩)], [0], [⟨1⟩]⟩, .normal) := by
  decide

/-- C9, as stated, fails: handling an intersecting entry leaves the entry of its element in
the register, and a batch with two intersecting entries for element 0 runs `init()` twice on
the example of element 0. -/
theorem double_entry_runs_init_twice :
    mapGet (exampleObserverCallback (initExamples true Example.mk State.empty [0])
        [⟨true, 0⟩]).1.exampleRegister 0 = some ⟨0⟩ ∧
    initCount (deliver (initExamples true Example.mk State.empty [0])
        [[⟨true, 0⟩, ⟨true, 0⟩]]) 0 = 2 := by
  decide

/-- Reading the register after a write. -/
theorem mapGet_mapSet (m : List (Element × Example)) (k : Element) (v : Example)
    (k1 : Element) :
    mapGet (mapSet m k v) k1 = if k = k1 then some v else mapGet m k1 := by
  induction m with
  | nil => simp [mapSet, mapGet]
  | cons p m ih =>
    obtain ⟨k0, v0⟩ := p
    by_cases h0 : k0 = k
    · subst h0
      by_cases h1 : k0 = k1 <;> simp [mapSet, mapGet, h1]
    · by_cases h1 : k0 = k1
      · subst h1
        have : ¬ k = k0 := fun h => h0 h.symm
        simp [mapSet, mapGet, h0, this]
      · simp [mapSet, mapGet, h0, h1, ih]

/-- The targets after `observe`. -/
theorem mem_observe (l : List Element) (x e : Element) :
    e ∈ observe l x ↔ e ∈ l ∨ e = x := by
  unfold observe
  by_cases hx : x ∈ l
  · rw [if_pos hx]
    constructor
    · exact Or.inl
    · rintro (h | rfl)
      · exact h
      · exact hx
  · rw [if_neg hx]
    simp

/-- The targets after `unobserve`. -/
theorem mem_unobserve (l : List Element) (x e : Element) :
    e ∈ unobserve l x ↔ e ∈ l ∧ e ≠ x := by
  simp [unobserve]

/-- The count of `init()` calls after one more call. -/
theorem initCount_snoc (s : State) (ex : Example) (obs : List Element) (e : Element) :
    initCount { s with observed := obs, inits := s.inits ++ [ex] } e =
      initCount s e + if ex.module = e then 1 else 0 := by
  unfold initCount
  by_cases h : ex.module = e <;> simp [List.filter_append, List.filter_cons, h]

/-- The count of `init()` calls does not depend on the observed elements. -/
theorem initCount_observed (s : State) (obs : List Element) (e : Element) :
    initCount { s with observed := obs } e = initCount s e := rfl

/-- With an observer, registration calls no `init()`, and every register entry holds an
example of its own key, whose element is observed. -/
theorem initExamples_registered (newExample : Element → Example) (examples : List Element) :
    ∀ s, (∀ k ex, mapGet s.exampleRegister k = some ex → ex.module = k ∧ k ∈ s.observed) →
      s.inits = [] →
      (∀ k ex, mapGet (initExamples true newExample s examples).exampleRegister k = some ex →
        ex.module = k ∧ k ∈ (initExamples true newExample s examples).observed) ∧
      (initExamples true newExample s examples).inits = [] := by
  induction examples with
  | nil => intro s hs hi; exact ⟨hs, hi⟩
  | cons el rest ih =>
    intro s hs hi
    simp only [initExamples, Bool.not_true, Bool.false_eq_true, if_false]
    apply ih
    · intro k ex hk
      simp only [mapGet_mapSet] at hk
      simp only [mem_observe]
      by_cases hkk : (newExample el).module = k
      · rw [if_pos hkk] at hk
        cases hk
        exact ⟨hkk, Or.inr hkk.symm⟩
      · rw [if_neg hkk] at hk
        exact ⟨(hs k ex hk).1, Or.inl (hs k ex hk).2⟩
    · exact hi

/-- The state after registration satisfies the invariant. -/
theorem initExamples_consistent (newExample : Element → Example) (examples : List Element) :
    Consistent (initExamples true newExample State.empty examples) := by
  have h0 : ∀ k ex, mapGet State.empty.exampleRegister k = some ex →
      ex.module = k ∧ k ∈ State.empty.observed := by
    intro k ex hk
    simp [State.empty, mapGet] at hk
  obtain ⟨hreg, hin⟩ := initExamples_registered newExample examples State.empty h0 rfl
  refine ⟨fun k ex hk => (hreg k ex hk).1, ?_, ?_, ?_⟩
  · intro e _
    simp [initCount, hin]
  · intro e
    simp [initCount, hin]
  · intro k ex hk hno
    exact absurd (hreg k ex hk).2 hno

/-- The callback never changes the register. -/
theorem callback_register (batch : List Entry) :
    ∀ s, (exampleObserverCallback s batch).1.exampleRegister = s.exampleRegister := by
  induction batch with
  | nil => intro s; rfl
  | cons entry rest ih =>
    intro s
    by_cases hint : entry.isIntersecting = true
    · cases hex : mapGet s.exampleRegister entry.target with
      | none => simp [exampleObserverCallback, hint, hex]
      | some ex =>
        have hstep : exampleObserverCallback s (entry :: rest) =
            exampleObserverCallback
              { s with observed := unobserve s.observed entry.target,
                       inits := s.inits ++ [ex] } rest := by
          simp [exampleObserverCallback, hint, hex]
        rw [hstep, ih]
    · simp [exampleObserverCallback, hint]

/-- The callback never lowers a count of `init()` calls. -/
theorem callback_initCount_mono (batch : List Entry) (e : Element) :
    ∀ s, initCount s e ≤ initCount (exampleObserverCallback s batch).1 e := by
  induction batch with
  | nil => intro s; exact Nat.le_refl _
  | cons entry rest ih =>
    intro s
    by_cases hint : entry.isIntersecting = true
    · cases hex : mapGet s.exampleRegister entry.target with
      | none =>
        have hstep : exampleObserverCallback s (entry :: rest) =
            ({ s with observed := unobserve s.observed entry.target }, .typeError) := by
          simp [exampleObserverCallback, hint, hex]
        rw [hstep]
        exact Nat.le_refl _
      | some ex =>
        have hstep : exampleObserverCallback s (entry :: rest) =
            exampleObserverCallback
              { s with observed := unobserve s.observed entry.target,
                       inits := s.inits ++ [ex] } rest := by
          simp [exampleObserverCallback, hint, hex]
        rw [hstep]
        refine Nat.le_trans ?_ (ih _)
        rw [initCount_snoc]
        exact Nat.le_add_right _ _
    · have hstep : exampleObserverCallback s (entry :: rest) = (s, .normal) := by
        simp [exampleObserverCallback, hint]
      exact hstep ▸ Nat.le_refl _

/-- A sequence of batches never lowers a count of `init()` calls. -/
theorem deliver_initCount_mono (batches : List (List Entry)) (e : Element) :
    ∀ s, initCount s e ≤ initCount (deliver s batches) e := by
  induction batches with
  | nil => intro s; exact Nat.le_refl _
  | cons batch rest ih =>
    intro s
    exact Nat.le_trans (callback_initCount_mono batch e s) (ih _)

/-- A sequence of batches never changes the register. -/
theorem deliver_register (batches : List (List Entry)) :
    ∀ s, (deliver s batches).exampleRegister = s.exampleRegister := by
  induction batches with
  | nil => intro s; rfl
  | cons batch rest ih =>
    intro s
    rw [deliver, ih, callback_register]

/-- On a batch the callback keeps the invariant when every handled entry of a registered
element finds it observed, and otherwise leaves some element with two `init()` calls. -/
theorem callback_consistent (batch : List Entry) :
    ∀ s, Consistent s →
      (handledObserved s batch = true → Consistent (exampleObserverCallback s batch).1) ∧
      (handledObserved s batch = false →
        ∃ e, 2 ≤ initCount (exampleObserverCallback s batch).1 e) := by
  induction batch with
  | nil =>
    intro s hs
    exact ⟨fun _ => hs, fun h => by simp [handledObserved] at h⟩
  | cons entry rest ih =>
    intro s hs
    obtain ⟨h1, h2, h3, h4⟩ := hs
    by_cases hint : entry.isIntersecting = true
    · cases hex : mapGet s.exampleRegister entry.target with
      | none =>
        have hstep : exampleObserverCallback s (entry :: rest) =
            ({ s with observed := unobserve s.observed entry.target }, .typeError) := by
          simp [exampleObserverCallback, hint, hex]
        have hho : handledObserved s (entry :: rest) = true := by
          simp [handledObserved, hint, hex]
        rw [hstep, hho]
        refine ⟨fun _ => ⟨h1, ?_, h3, ?_⟩, fun h => by simp at h⟩
        · intro e he
          exact h2 e ((mem_unobserve _ _ _).mp he).1
        · intro k ex hk hno
          have hkt : k ≠ entry.target := by
            intro heq
            rw [heq, hex] at hk
            cases hk
          have hno2 : k ∉ s.observed := fun hin => hno ((mem_unobserve _ _ _).mpr ⟨hin, hkt⟩)
          exact h4 k ex hk hno2
      | some ex =>
        have hmod : ex.module = entry.target := h1 _ _ hex
        have hstep : exampleObserverCallback s (entry :: rest) =
            exampleObserverCallback
              { s with observed := unobserve s.observed entry.target,
                       inits := s.inits ++ [ex] } rest := by
          simp [exampleObserverCallback, hint, hex]
        have hho : handledObserved s (entry :: rest) =
            (decide (entry.target ∈ s.observed) &&
              handledObserved
                { s with observed := unobserve s.observed entry.target,
                         inits := s.inits ++ [ex] } rest) := by
          simp [handledObserved, hint, hex]
        rw [hstep, hho]
        by_cases ht : entry.target ∈ s.observed
        · have hnext : Consistent
              { s with observed := unobserve s.observed entry.target,
                       inits := s.inits ++ [ex] } := by
            refine ⟨h1, ?_, ?_, ?_⟩
            · intro e he
              obtain ⟨he1, he2⟩ := (mem_unobserve _ _ _).mp he
              rw [initCount_snoc, h2 e he1, hmod, if_neg (fun h => he2 h.symm)]
            · intro e
              rw [initCount_snoc, hmod]
              by_cases hte : entry.target = e
              · rw [if_pos hte, ← hte, h2 _ ht]
              · rw [if_neg hte]
                exact h3 e
            · intro k ex2 hk hno
              rw [initCount_snoc, hmod]
              by_cases hte : entry.target = k
              · rw [if_pos hte]
                exact Nat.le_add_left _ _
              · rw [if_neg hte]
                have hno2 : k ∉ s.observed :=
                  fun hin => hno ((mem_unobserve _ _ _).mpr ⟨hin, fun h => hte h.symm⟩)
                exact h4 k ex2 hk hno2
          simp only [ht, decide_True, Bool.true_and]
          exact ih _ hnext
        · simp only [ht, decide_False, Bool.false_and]
          refine ⟨fun h => by simp at h, fun _ => ⟨entry.target, ?_⟩⟩
          refine Nat.le_trans ?_ (callback_initCount_mono rest entry.target _)
          rw [initCount_snoc, hmod, if_pos rfl]
          have := h4 _ _ hex ht
          omega
    · have hstep : exampleObserverCallback s (entry :: rest) = (s, .normal) := by
        simp [exampleObserverCallback, hint]
      have hho : handledObserved s (entry :: rest) = true := by
        simp [handledObserved, hint]
      rw [hstep, hho]
      exact ⟨fun _ => ⟨h1, h2, h3, h4⟩, fun h => by simp at h⟩

/-- On a sequence of batches the invariant is kept when every handled entry of a registered
element finds it observed, and otherwise some element ends with two `init()` calls. -/
theorem deliver_consistent (batches : List (List Entry)) :
    ∀ s, Consistent s →
      (allHandledObserved s batches = true → Consistent (deliver s batches)) ∧
      (allHandledObserved s batches = false → ∃ e, 2 ≤ initCount (deliver s batches) e) := by
  induction batches with
  | nil =>
    intro s hs
    exact ⟨fun _ => hs, fun h => by simp [allHandledObserved] at h⟩
  | cons batch rest ih =>
    intro s hs
    obtain ⟨hok, hbad⟩ := callback_consistent batch s hs
    cases hb : handledObserved s batch with
    | true =>
      obtain ⟨hok2, hbad2⟩ := ih _ (hok hb)
      simp only [allHandledObserved, hb, Bool.true_and, deliver]
      exact ⟨hok2, hbad2⟩
    | false =>
      obtain ⟨e, he⟩ := hbad hb
      simp only [allHandledObserved, hb, Bool.false_and, deliver]
      exact ⟨fun h => by simp at h,
        fun _ => ⟨e, Nat.le_trans he (deliver_initCount_mono rest e _)⟩⟩

/-- C9, amended: when the callback handles an intersecting entry for an element with a
register entry it stops observing the element and runs `init()` of its example, and it leaves
the entry in the register, which no sequence of batches changes. After the examples are
registered, for every sequence of callback batches, `init()` is never run more than once for
the same element exactly when every intersecting entry that the callback handles for a
registered element finds that element still observed. -/
theorem init_at_most_once_iff_handled_observed (newExample : Element → Example)
    (examples : List Element) (batches : List (List Entry)) :
    ((∀ e, initCount (deliver (initExamples true newExample State.empty examples) batches) e
        ≤ 1) ↔
      allHandledObserved (initExamples true newExample State.empty examples) batches = true) ∧
    (deliver (initExamples true newExample State.empty examples) batches).exampleRegister =
      (initExamples true newExample State.empty examples).exampleRegister ∧
    (∀ s entry ex, entry.isIntersecting = true →
      mapGet s.exampleRegister entry.target = some ex →
      exampleObserverCallback s [entry] =
        ({ s with observed := unobserve s.observed entry.target, inits := s.inits ++ [ex] },
          .normal)) := by
  obtain ⟨hok, hbad⟩ := deliver_consistent batches _
    (initExamples_consistent newExample examples)
  refine ⟨⟨?_, fun h => (hok h).2.2.1⟩, deliver_register batches _, ?_⟩
  · intro hle
    cases hall : allHandledObserved (initExamples true newExample State.empty examples)
        batches with
    | true => rfl
    | false =>
      obtain ⟨e, he⟩ := hbad hall
      have := hle e
      omega
  · intro s entry ex hint hex
    simp [exampleObserverCallback, hint, hex]

/-- The amended C9 on two registered elements: a batch in which element 0 becomes visible and
is then reported as not visible, followed by a batch in which element 1 becomes visible,
initialises each element once; a later second intersecting entry for element 0 breaks the
condition. -/
theorem init_at_most_once_witness :
    allHandledObserved (initExamples true Example.mk State.empty [0, 1])
        [[⟨true, 0⟩, ⟨false, 0⟩], [⟨true, 1⟩]] = true ∧
    (∀ e, initCount (deliver (initExamples true Example.mk State.empty [0, 1])
        [[⟨true, 0⟩, ⟨false, 0⟩], [⟨true, 1⟩]]) e ≤ 1) ∧
    initCount (deliver (initExamples true Example.mk State.empty [0, 1])
        [[⟨true, 0⟩, ⟨false, 0⟩], [⟨true, 1⟩]]) 0 = 1 ∧
    initCount (deliver (initExamples true Example.mk State.empty [0, 1])
        [[⟨true, 0⟩, ⟨false, 0⟩], [⟨true, 1⟩]]) 1 = 1 ∧
    allHandledObserved (initExamples true Example.mk State.empty [0, 1])
        [[⟨true, 0⟩, ⟨false, 0⟩], [⟨true, 0⟩]] = false :=
  ⟨by decide,
   (init_at_most_once_iff_handled_observed Example.mk [0, 1]
      [[⟨true, 0⟩, ⟨false, 0⟩], [⟨true, 1⟩]]).1.mpr (by decide),
   by decide, by decide, by decide⟩

end Application
